import Mathlib

/-!
# Verification of the `playwright-mcp-insight` request router

Shallow embedding of `src/index.ts` (the second, fuller module variant at
lines 64-200, which the claims reference: it has the `readJson` helper and
the `/health`, `/sse`, `/extract`, `/sse/message`, `/mcp` routes).

JavaScript values reachable from a parsed JSON body are modelled by
`JSValue` (with an explicit `undefined` so that missing-property access and
the `??` / `||` / `!` operators can be given their JavaScript semantics).
A request carries its method, pathname, query string, headers, and the
outcome of parsing its body (`none` = the body was not valid JSON, in which
case `readJson`'s `catch` produces `{}`).

The router `route` is a total Lean function: every branch of the embedded
dispatch code builds a `Response` value without throwing, so totality of
`route` models exception-freedom of the dispatch itself.  The `/extract`
handler's awaited browser operations can fail; they are modelled separately
by `runExtract`, driven by an oracle saying which awaited call throws.
-/

set_option autoImplicit false

namespace PlaywrightMcp

/-- A JavaScript value as seen by the handler after `JSON.parse`, plus
`undefined` (the result of reading an absent property). -/
inductive JSValue where
  | undefined : JSValue
  | null : JSValue
  | bool (b : Bool) : JSValue
  | num (n : Int) : JSValue
  | str (s : String) : JSValue
  | arr (elems : List JSValue) : JSValue
  | obj (fields : List (String × JSValue)) : JSValue

/-- Property access `v?.k` (also plain `v.k` for the values that occur
here): on an object, the value of the key (the last occurrence wins, as in
`JSON.parse`); on anything else — including `null` and `undefined` thanks
to the optional chaining used in the source — `undefined`. -/
def jsGet (v : JSValue) (k : String) : JSValue :=
  match v with
  | .obj fields => fields.foldl (fun acc p => if p.1 = k then p.2 else acc) .undefined
  | _ => .undefined

/-- Whether a parsed JSON body has the given field at all (objects only). -/
def hasField (v : JSValue) (k : String) : Bool :=
  match v with
  | .obj fields => fields.any (fun p => p.1 = k)
  | _ => false

/-- The nullish-coalescing operator `a ?? b`. -/
def nullish (a b : JSValue) : JSValue :=
  match a with
  | .undefined => b
  | .null => b
  | v => v

/-- JavaScript truthiness test on the values representable here (`NaN` and
`-0` do not arise from `JSON.parse` into this model). -/
def jsTruthy (v : JSValue) : Bool :=
  match v with
  | .undefined => false
  | .null => false
  | .bool b => b
  | .num n => n ≠ 0
  | .str s => s ≠ ""
  | .arr _ => true
  | .obj _ => true

/-- `a || b` on strings: JavaScript takes `a` when it is truthy (non-empty),
else `b`.  Used by the scraping closure for its fallback chains. -/
def jsOrStr (a b : String) : String :=
  if a ≠ "" then a else b

/-- An incoming HTTP request, reduced to what the handler inspects.
`body` is the outcome of `request.json()`: `none` when the raw body was not
valid JSON (the promise rejected), `some v` when it parsed to `v`. -/
structure HttpRequest where
  method : String
  pathname : String
  query : String
  headers : List (String × String)
  body : Option JSValue

/-- `readJson`:
`try { return await req.json(); } catch { return {}; }` — a parse failure
is replaced by the empty object. -/
def readJson (body : Option JSValue) : JSValue :=
  match body with
  | some v => v
  | none => .obj []

/-- The fixed fallback model identifier in the `/sse` handler. -/
def defaultModel : String := "@cf/meta/llama-3.3-70b-instruct-fp8-fast"

/-- The exact argument tuple passed to `env.AI.run(model, { stream,
max_tokens, messages })`. -/
structure AIRunArgs where
  model : JSValue
  stream : JSValue
  max_tokens : JSValue
  messages : JSValue

/-- The defaulting block of the `POST /sse` handler:
`messages = body?.messages ?? [{ role: "user", content: body?.prompt ?? "" }]`,
`model = body?.model ?? "@cf/meta/llama-3.3-70b-instruct-fp8-fast"`,
`stream = body?.stream ?? true`, `max_tokens = body?.max_tokens ?? 2048`. -/
def sseArgs (body : JSValue) : AIRunArgs :=
  { messages := nullish (jsGet body "messages")
      (.arr [.obj [("role", .str "user"),
                   ("content", nullish (jsGet body "prompt") (.str ""))]])
  , model := nullish (jsGet body "model") (.str defaultModel)
  , stream := nullish (jsGet body "stream") (.bool true)
  , max_tokens := nullish (jsGet body "max_tokens") (.num 2048) }

/-- The JSON body of the 400 response of the `/extract` handler:
`{ error: "Missing 'url'" }`. -/
def missingUrlBody : JSValue :=
  .obj [("error", .str "Missing \x27url\x27")]

/-- What the router resolves a request to.  `response` is a plain text
response; `jsonResponse` a `JSON.stringify`-ed body; `aiStream` the
event-stream response produced from `env.AI.run` with the given arguments;
`extractRun url` means the `/extract` handler passed its `url` check and
proceeds into the browser session (modelled by `runExtract`); the two MCP
outcomes delegate to the external agent's transport handlers. -/
inductive Outcome where
  | response (status : Nat) (body : String) : Outcome
  | jsonResponse (status : Nat) (body : JSValue) : Outcome
  | aiStream (args : AIRunArgs) : Outcome
  | extractRun (url : JSValue) : Outcome
  | mcpSSE : Outcome
  | mcpHTTP : Outcome

/-- The dispatch function `fetch` of the worker (browser work of a
successful `/extract` factored out into `runExtract`):
sequential `if (method && pathname)` guards, then a `switch (pathname)`
whose default is the 404. -/
def route (req : HttpRequest) : Outcome :=
  if req.method = "GET" ∧ req.pathname = "/health" then
    .response 200 "ok"
  else if req.method = "POST" ∧ req.pathname = "/sse" then
    .aiStream (sseArgs (readJson req.body))
  else if req.method = "POST" ∧ req.pathname = "/extract" then
    let body := readJson req.body
    let targetUrl := jsGet body "url"
    if ¬ jsTruthy targetUrl then .jsonResponse 400 missingUrlBody
    else .extractRun targetUrl
  else if req.pathname = "/sse" ∨ req.pathname = "/sse/message" then
    .mcpSSE
  else if req.pathname = "/mcp" then
    .mcpHTTP
  else
    .response 404 "Not Found"

/-- The handler branches of the dispatch (`version` exists in the other
module variant of the file; this variant never selects it). -/
inductive Branch where
  | health : Branch
  | version : Branch
  | generation : Branch
  | extraction : Branch
  | mcpSSEBranch : Branch
  | mcpHTTPBranch : Branch
  | notFound : Branch
  deriving DecidableEq

/-- Which branch the dispatch selects, as a function of method and
pathname only — the guards of `route` inspect nothing else. -/
def branchOfMP (method pathname : String) : Branch :=
  if method = "GET" ∧ pathname = "/health" then .health
  else if method = "POST" ∧ pathname = "/sse" then .generation
  else if method = "POST" ∧ pathname = "/extract" then .extraction
  else if pathname = "/sse" ∨ pathname = "/sse/message" then .mcpSSEBranch
  else if pathname = "/mcp" then .mcpHTTPBranch
  else .notFound

/-- Branch selected for a request. -/
def branchOf (req : HttpRequest) : Branch :=
  branchOfMP req.method req.pathname

/-- The handler body belonging to each branch. -/
def handlerFor (b : Branch) (req : HttpRequest) : Outcome :=
  match b with
  | .health => .response 200 "ok"
  | .version => .response 200 "local"
  | .generation => .aiStream (sseArgs (readJson req.body))
  | .extraction =>
      let body := readJson req.body
      let targetUrl := jsGet body "url"
      if ¬ jsTruthy targetUrl then .jsonResponse 400 missingUrlBody
      else .extractRun targetUrl
  | .mcpSSEBranch => .mcpSSE
  | .mcpHTTPBranch => .mcpHTTP
  | .notFound => .response 404 "Not Found"

theorem route_eq_handlerFor (req : HttpRequest) :
    route req = handlerFor (branchOf req) req := by
  unfold route branchOf branchOfMP handlerFor
  split <;> simp_all <;> split <;> simp_all <;> split <;> simp_all <;> split <;> simp_all
    <;> split <;> simp_all

/-! ## The browser-session part of the `/extract` handler

After the `url` check passes, the handler awaits, in order: `launch`,
`newContext`, `newPage`, `goto`, `waitForSelector` (inside
`try { … } catch {}`), `evaluate`, `screenshot` (with
`.catch(() => undefined)`), `close`.  There is no `try/finally` around the
session.  `ExtractOracle` says which awaited call would throw; `runExtract`
returns the calls actually made before the handler either returned its
response (`true`) or was aborted by an uncaught rejection (`false`).
`waitOk` and `screenshotOk` deliberately do not influence control flow:
those two failures are swallowed by the handler. -/

/-- Which awaited browser-session operations succeed in one execution. -/
structure ExtractOracle where
  launchOk : Bool
  newContextOk : Bool
  newPageOk : Bool
  gotoOk : Bool
  waitOk : Bool
  evalOk : Bool
  screenshotOk : Bool
  closeOk : Bool
  deriving DecidableEq

/-- The awaited browser-session operations of the `/extract` handler. -/
inductive BrowserEv where
  | launch : BrowserEv
  | newContext : BrowserEv
  | newPage : BrowserEv
  | goto : BrowserEv
  | waitForSelector : BrowserEv
  | evaluate : BrowserEv
  | screenshot : BrowserEv
  | close : BrowserEv
  deriving DecidableEq

/-- The `/extract` handler body after the `url` check: the sequence of
browser calls made, and whether the handler ran to completion (`true`) or
aborted on an uncaught rejection (`false`). -/
def runExtract (o : ExtractOracle) : List BrowserEv × Bool :=
  let t := [BrowserEv.launch]
  if !o.launchOk then (t, false) else
  let t := t ++ [BrowserEv.newContext]
  if !o.newContextOk then (t, false) else
  let t := t ++ [BrowserEv.newPage]
  if !o.newPageOk then (t, false) else
  let t := t ++ [BrowserEv.goto]
  if !o.gotoOk then (t, false) else
  let t := t ++ [BrowserEv.waitForSelector]
  let t := t ++ [BrowserEv.evaluate]
  if !o.evalOk then (t, false) else
  let t := t ++ [BrowserEv.screenshot]
  let t := t ++ [BrowserEv.close]
  if !o.closeOk then (t, false) else
  (t, true)

/-- Browser-session calls a request triggers: only the `extractRun` outcome
of the dispatch reaches the browser section. -/
def browserTrace (req : HttpRequest) (o : ExtractOracle) : List BrowserEv :=
  match route req with
  | .extractRun _ => (runExtract o).1
  | _ => []

/-! ## Helper lemmas -/

theorem jsGet_eq_undefined_of_not_hasField (v : JSValue) (k : String)
    (h : hasField v k = false) : jsGet v k = .undefined := by
  cases v <;> simp [jsGet]
  case obj fields =>
    simp only [hasField, List.any_eq_false, decide_eq_true_eq] at h
    induction fields with
    | nil => rfl
    | cons p ps ih =>
      have hp : ¬ p.1 = k := h p (List.mem_cons_self p ps)
      simp only [List.foldl_cons, if_neg hp]
      exact ih fun q hq => h q (List.mem_cons_of_mem p hq)

/-- Whether `??` takes its right operand on this left operand. -/
def isNullish (v : JSValue) : Bool :=
  match v with
  | .undefined => true
  | .null => true
  | _ => false

theorem nullish_eq_ite (a b : JSValue) :
    nullish a b = if isNullish a then b else a := by
  cases a <;> rfl

/-! ## The in-page scraping closure of `page.evaluate`

The closure runs over the rendered DOM.  An element is modelled by the
attribute/ancestry facts the closure reads: its `id`, the text content of a
`label[for=id]` match (if one exists), of the closest enclosing `label` (if
any), of the nearest heading/legend fallback (if any), the `aria-required`
attribute and the `required` IDL property. -/

/-- The ECMAScript `\s` character class (`WhiteSpace` ∪ `LineTerminator`),
used by `.trim()` and by the `/[*✱]\s*$/` and `/\s+/g` regexes. -/
def isJsSpace (c : Char) : Bool :=
  ['\t', '\n', '\x0b', '\x0c', '\r', ' ', '\u00A0', '\u1680', '\u2028',
   '\u2029', '\u202F', '\u205F', '\u3000', '\uFEFF'].contains c
  || (decide (0x2000 ≤ c.toNat) && decide (c.toNat ≤ 0x200A))

/-- JavaScript `String.prototype.trim`. -/
def jsTrim (s : String) : String :=
  ⟨((s.data.dropWhile isJsSpace).reverse.dropWhile isJsSpace).reverse⟩

/-- `replace(/\s+/g, " ")`: each maximal run of `\s` characters becomes a
single space. -/
def collapseWsAux : Bool → List Char → List Char
  | _, [] => []
  | prevSpace, c :: cs =>
    if isJsSpace c then
      if prevSpace then collapseWsAux true cs
      else ' ' :: collapseWsAux true cs
    else c :: collapseWsAux false cs

/-- `s.replace(/\s+/g, " ")`. -/
def collapseWs (s : String) : String := ⟨collapseWsAux false s.data⟩

/-- The DOM facts about one form element that `labelFor` and `isRequired`
read.  `labelByFor` is the text content of the first `label[for="<id>"]`
in the document (`none` when no such element exists), `closestLabel` the
text content of the nearest enclosing `label`, `headingText` the text of
the heading/legend found through `closest("li, div, section")` (`none`
when either lookup fails). -/
structure FormElem where
  id : String
  labelByFor : Option String
  closestLabel : Option String
  headingText : Option String
  ariaRequired : Option String
  requiredProp : Bool
  deriving DecidableEq

/-- `labelFor(el)`: the `label[for=]` match when `id` is truthy, else the
closest enclosing label — trimmed and whitespace-collapsed; else the
heading/legend fallback, only trimmed; else `""`. -/
def labelFor (el : FormElem) : String :=
  let lab := if el.id ≠ "" then el.labelByFor else none
  let lab := match lab with
    | none => el.closestLabel
    | some l => some l
  match lab with
  | some l => collapseWs (jsTrim l)
  | none =>
    match el.headingText with
    | some t => jsTrim t
    | none => ""

/-- The test `/[*✱]\s*$/.test(lbl)`: after discarding trailing `\s`
characters the last character is `*` or `✱`. -/
def testAsteriskSuffix (s : String) : Bool :=
  match s.data.reverse.dropWhile isJsSpace with
  | [] => false
  | c :: _ => c = '*' || c = '✱'

/-- `isRequired(el)`: `aria-required === "true"`, or the `required` IDL
property, or the asterisk test on the resolved label. -/
def isRequired (el : FormElem) : Bool :=
  if el.ariaRequired = some "true" then true
  else if el.requiredProp then true
  else testAsteriskSuffix (labelFor el)

/-- Spec-side reading of the asterisk test: the string ends with `*` or
`✱` followed only by whitespace. -/
def EndsWithAsteriskWs (s : String) : Prop :=
  ∃ (p w : List Char) (a : Char),
    s.data = p ++ a :: w ∧ (a = '*' ∨ a = '✱') ∧ ∀ ch ∈ w, isJsSpace ch = true

theorem dropWhile_append_of_forall {α : Type} (p : α → Bool) (l1 l2 : List α)
    (h : ∀ x ∈ l1, p x = true) : (l1 ++ l2).dropWhile p = l2.dropWhile p := by
  induction l1 with
  | nil => rfl
  | cons x xs ih =>
    have hx : p x = true := h x (List.mem_cons_self _ _)
    simpa [List.dropWhile_cons, hx] using ih fun y hy => h y (List.mem_cons_of_mem _ hy)

theorem testAsteriskSuffix_iff (s : String) :
    testAsteriskSuffix s = true ↔ EndsWithAsteriskWs s := by
  constructor
  · intro h
    unfold testAsteriskSuffix at h
    rcases hd : s.data.reverse.dropWhile isJsSpace with _ | ⟨c, rest⟩
    · rw [hd] at h; exact absurd h (by simp)
    · rw [hd] at h
      have hsplit : s.data.reverse.takeWhile isJsSpace ++ (c :: rest) = s.data.reverse := by
        rw [← hd]; exact List.takeWhile_append_dropWhile isJsSpace s.data.reverse
      refine ⟨rest.reverse, (s.data.reverse.takeWhile isJsSpace).reverse, c, ?_, ?_, ?_⟩
      · have := congrArg List.reverse hsplit
        simpa using this.symm
      · simpa using h
      · intro ch hch
        exact List.mem_takeWhile_imp (List.mem_reverse.mp hch)
  · rintro ⟨p, w, a, hsd, ha, hw⟩
    have hna : isJsSpace a = false := by
      rcases ha with h | h <;> subst h <;> decide
    unfold testAsteriskSuffix
    rw [hsd]
    rw [show (p ++ a :: w).reverse = w.reverse ++ a :: p.reverse by simp]
    rw [dropWhile_append_of_forall _ _ _ (fun x hx => hw x (List.mem_reverse.mp hx))]
    rw [List.dropWhile_cons, hna]
    simpa using ha

/-! ## The field-collection pass (`input, select, textarea`) -/

/-- One candidate element of the `document.querySelectorAll` pass, with
its computed style and the raw attributes the closure reads. -/
structure PageElem extends FormElem where
  tagName : String
  typeProp : String
  nameAttr : Option String
  placeholderAttr : Option String
  display : String
  visibility : String
  deriving DecidableEq

/-- One record pushed into `results`. -/
structure FieldRec where
  control : String
  type : String
  label : String
  name : String
  placeholder : String
  required : Bool
  deriving DecidableEq

/-- The per-element body of the first `forEach` (after the hidden check):
`type = (el.type || tagName.toLowerCase()).toLowerCase()`, attributes
defaulted to `""` and trimmed, label and required flag resolved, and the
control kind overridden for `TEXTAREA`/`SELECT`. -/
def fieldOf (el : PageElem) : FieldRec :=
  let ty0 := jsOrStr el.typeProp el.tagName.toLower
  let ty := ty0.toLower
  let name := jsTrim (el.nameAttr.getD "")
  let placeholder := jsTrim (el.placeholderAttr.getD "")
  let label := labelFor el.toFormElem
  let required := isRequired el.toFormElem
  let control := ty
  let control := if el.tagName = "TEXTAREA" then "textarea" else control
  let control := if el.tagName = "SELECT" then "select" else control
  { control := control, type := ty, label := label, name := name
  , placeholder := placeholder, required := required }

/-- The first `forEach`: skip hidden elements, push a record for the
rest. -/
def scrapeFields (els : List PageElem) : List FieldRec :=
  els.foldl
    (fun results el =>
      if el.display = "none" ∨ el.visibility = "hidden" then results
      else results ++ [fieldOf el])
    []

/-! ## Claim C8 -/

/-- C8: a visible form element is scraped, and its reported `required`
flag is true exactly when the element has the `required` attribute, or
`aria-required="true"`, or its resolved label ends in `*`/`✱` followed
only by whitespace. -/
theorem c8_required_flag (el : PageElem)
    (hv : ¬ (el.display = "none" ∨ el.visibility = "hidden")) :
    scrapeFields [el] = [fieldOf el] ∧
    ((fieldOf el).required = true ↔
      el.requiredProp = true ∨ el.ariaRequired = some "true" ∨
      EndsWithAsteriskWs (labelFor el.toFormElem)) := by
  constructor
  · simp [scrapeFields, hv]
  · show isRequired el.toFormElem = true ↔ _
    unfold isRequired
    by_cases h1 : el.toFormElem.ariaRequired = some "true" <;>
      by_cases h2 : el.toFormElem.requiredProp = true <;>
        simp [h1, h2, testAsteriskSuffix_iff]

/-- C8 witness: a text input whose enclosing label is `"Name *"` and which
carries neither the attribute nor `aria-required`. -/
theorem c8_required_flag_witness :
    (let el : PageElem :=
      { id := "", labelByFor := none, closestLabel := some "Name *"
      , headingText := none, ariaRequired := none, requiredProp := false
      , tagName := "INPUT", typeProp := "text", nameAttr := some "name"
      , placeholderAttr := none, display := "block", visibility := "visible" }
     scrapeFields [el] = [fieldOf el] ∧
     ((fieldOf el).required = true ↔
       el.requiredProp = true ∨ el.ariaRequired = some "true" ∨
       EndsWithAsteriskWs (labelFor el.toFormElem))) :=
  c8_required_flag _ (by decide)

/-! ## The radio/checkbox grouping pass

`document.querySelectorAll('input[type="radio"], input[type="checkbox"]')`
is modelled as a list of `RCInput` in document order.  The closure builds a
plain object keyed by `name || id || labelFor(i) || "ungrouped"`; each
group's `options` is a JavaScript `Set`, which keeps insertion order and
ignores repeats — modelled as a duplicate-free list grown by `addOption`. -/

/-- One radio/checkbox input: the `FormElem` facts plus the `type`, `name`
and `value` IDL properties the grouping code reads. -/
structure RCInput extends FormElem where
  ty : String
  name : String
  value : String
  deriving DecidableEq

/-- `i.name || i.id || labelFor(i) || "ungrouped"`. -/
def groupKey (i : RCInput) : String :=
  jsOrStr i.name (jsOrStr i.id (jsOrStr (labelFor i.toFormElem) "ungrouped"))

/-- `(i.closest("label")?.textContent || "").trim() || i.value || ""`. -/
def optLabel (i : RCInput) : String :=
  jsOrStr (jsTrim (i.closestLabel.getD "")) (jsOrStr i.value "")

/-- One value of the `groups` record while the `Set` is still live. -/
structure GroupRec where
  control : String
  group : String
  label : String
  options : List String
  required : Bool
  deriving DecidableEq

/-- `Set.prototype.add`: appends unless already present. -/
def addOption (opts : List String) (o : String) : List String :=
  if o ∈ opts then opts else opts ++ [o]

/-- Point update of the entry with the given key. -/
def updateEntry (gs : List (String × GroupRec)) (k : String)
    (f : GroupRec → GroupRec) : List (String × GroupRec) :=
  gs.map fun p => if p.1 = k then (p.1, f p.2) else p

/-- The body of the second `forEach`: create the group on first sight
(`if (!groups[g])`), then add the option label when it is truthy. -/
def collectStep (gs : List (String × GroupRec)) (i : RCInput) :
    List (String × GroupRec) :=
  let g := groupKey i
  let gs1 := if gs.any (fun p => p.1 = g) then gs
             else gs ++ [(g, { control := i.ty, group := g
                             , label := labelFor i.toFormElem, options := []
                             , required := isRequired i.toFormElem })]
  let o := optLabel i
  if o = "" then gs1
  else updateEntry gs1 g fun gr => { gr with options := addOption gr.options o }

/-- The whole grouping pass, entries in key-insertion order (the object's
property order for the non-integer-like keys that arise here). -/
def collectGroups (inputs : List RCInput) : List (String × GroupRec) :=
  inputs.foldl collectStep []

/-- How `options` is serialized at the end:
`(g.options as Set).size && (g.options = Array.from(g.options))` turns a
non-empty `Set` into an array in insertion order and leaves an empty `Set`
in place. -/
inductive OptionsRepr where
  | asSet (elems : List String) : OptionsRepr
  | asList (elems : List String) : OptionsRepr
  deriving DecidableEq

/-- Materialization of a group's option set. -/
def materializeOptions (opts : List String) : OptionsRepr :=
  if opts.length ≠ 0 then .asList opts else .asSet opts

/-- Spec side: keep the first occurrence of every element, in order. -/
def firstDedup (l : List String) : List String :=
  l.foldl (fun acc x => if x ∈ acc then acc else acc ++ [x]) []

/-- Spec side: the (possibly repeating) option labels contributed to group
`g`, in document order. -/
def groupLabels (inputs : List RCInput) (g : String) : List String :=
  ((inputs.filter fun i => groupKey i = g).map optLabel).filter fun s => s ≠ ""

theorem groupLabels_append_single (seen : List RCInput) (i : RCInput) (g : String) :
    groupLabels (seen ++ [i]) g =
      groupLabels seen g ++
        (if groupKey i = g ∧ optLabel i ≠ "" then [optLabel i] else []) := by
  by_cases h1 : groupKey i = g <;> by_cases h2 : optLabel i = "" <;>
    simp [groupLabels, List.filter_append, h1, h2]

theorem firstDedup_append_single (l : List String) (x : String) :
    firstDedup (l ++ [x]) = addOption (firstDedup l) x := by
  simp [firstDedup, addOption, List.foldl_append]

theorem firstDedup_nodup (l : List String) : (firstDedup l).Nodup := by
  suffices h : ∀ acc : List String, acc.Nodup →
      (l.foldl (fun acc x => if x ∈ acc then acc else acc ++ [x]) acc).Nodup from
    h [] List.nodup_nil
  induction l with
  | nil => exact fun acc h => h
  | cons y ys ih =>
    intro acc hacc
    simp only [List.foldl_cons]
    by_cases hy : y ∈ acc
    · simpa [hy] using ih acc hacc
    · have : (acc ++ [y]).Nodup := by
        simp [List.nodup_append, hacc, hy]
      simpa [hy] using ih _ this
theorem mem_firstDedup (l : List String) (x : String) :
    x ∈ firstDedup l ↔ x ∈ l := by
  suffices h : ∀ acc : List String,
      (x ∈ l.foldl (fun acc x => if x ∈ acc then acc else acc ++ [x]) acc ↔
        x ∈ acc ∨ x ∈ l) by
    simpa using h []
  induction l with
  | nil => simp
  | cons y ys ih =>
    intro acc
    simp only [List.foldl_cons]
    by_cases hy : y ∈ acc
    · rw [if_pos hy, ih acc]
      constructor
      · rintro (h | h)
        · exact Or.inl h
        · exact Or.inr (List.mem_cons_of_mem _ h)
      · rintro (h | h)
        · exact Or.inl h
        · rcases List.mem_cons.mp h with h | h
          · exact Or.inl (h ▸ hy)
          · exact Or.inr h
    · rw [if_neg hy, ih (acc ++ [y])]
      simp [List.mem_append, List.mem_cons, or_assoc, or_comm, or_left_comm]

/-- The invariant carried through the grouping fold: every present entry's
option set is the first-occurrence dedup of the labels seen so far for its
key, keys are unique, and every input seen so far has an entry. -/
def GroupsInv (seen : List RCInput) (gs : List (String × GroupRec)) : Prop :=
  (∀ p ∈ gs, p.2.options = firstDedup (groupLabels seen p.1)) ∧
  (gs.map Prod.fst).Nodup ∧
  (∀ i ∈ seen, groupKey i ∈ gs.map Prod.fst)

theorem updateEntry_keys (gs : List (String × GroupRec)) (k : String)
    (f : GroupRec → GroupRec) :
    (updateEntry gs k f).map Prod.fst = gs.map Prod.fst := by
  induction gs with
  | nil => rfl
  | cons p ps ih =>
    by_cases hp : p.1 = k <;> simp [updateEntry, hp] <;>
      simpa [updateEntry] using ih

theorem mem_updateEntry (gs : List (String × GroupRec)) (k : String)
    (f : GroupRec → GroupRec) (p : String × GroupRec)
    (h : p ∈ updateEntry gs k f) :
    ∃ q ∈ gs, (q.1 ≠ k ∧ p = q) ∨ (q.1 = k ∧ p = (q.1, f q.2)) := by
  rcases List.mem_map.mp h with ⟨q, hq, hpq⟩
  refine ⟨q, hq, ?_⟩
  by_cases hk : q.1 = k
  · right; exact ⟨hk, by simpa [hk] using hpq.symm⟩
  · left; exact ⟨hk, by simpa [hk] using hpq.symm⟩

theorem groupLabels_eq_nil (seen : List RCInput) (g : String)
    (h : ∀ i ∈ seen, groupKey i ≠ g) : groupLabels seen g = [] := by
  have : seen.filter (fun i => groupKey i = g) = [] :=
    List.filter_eq_nil_iff.mpr fun i hi => by simpa using h i hi
  simp [groupLabels, this]

theorem groupLabels_append_irrelevant (seen : List RCInput) (i : RCInput)
    (g : String) (hg : groupKey i ≠ g ∨ optLabel i = "") :
    groupLabels (seen ++ [i]) g = groupLabels seen g := by
  rw [groupLabels_append_single]
  rcases hg with h | h <;> simp [h]

theorem collectStep_keys (gs : List (String × GroupRec)) (i : RCInput) :
    (collectStep gs i).map Prod.fst =
      if gs.any (fun p => p.1 = groupKey i) then gs.map Prod.fst
      else gs.map Prod.fst ++ [groupKey i] := by
  unfold collectStep
  by_cases hex : gs.any (fun p => p.1 = groupKey i) = true <;>
    by_cases ho : optLabel i = "" <;>
      simp [hex, ho, updateEntry_keys]

theorem not_any_key (gs : List (String × GroupRec)) (k : String)
    (hex : ¬ gs.any (fun p => p.1 = k) = true) :
    k ∉ gs.map Prod.fst := by
  intro hk
  rcases List.mem_map.mp hk with ⟨p, hp, hpk⟩
  exact hex (List.any_eq_true.mpr ⟨p, hp, by simpa using hpk⟩)

theorem collectStep_inv (seen : List RCInput) (gs : List (String × GroupRec))
    (i : RCInput) (h : GroupsInv seen gs) :
    GroupsInv (seen ++ [i]) (collectStep gs i) := by
  obtain ⟨hopt, hnodup, hcover⟩ := h
  have hkeys := collectStep_keys gs i
  by_cases hex : gs.any (fun p => p.1 = groupKey i) = true
  · -- the group already exists: no new entry is appended
    refine ⟨?_, ?_, ?_⟩
    · intro p hp
      by_cases ho : optLabel i = ""
      · have hres : collectStep gs i = gs := by simp [collectStep, hex, ho]
        rw [hres] at hp
        rw [groupLabels_append_irrelevant seen i p.1 (Or.inr ho)]
        exact hopt p hp
      · have hres : collectStep gs i =
            updateEntry gs (groupKey i)
              (fun gr => { gr with options := addOption gr.options (optLabel i) }) := by
          simp [collectStep, hex, ho]
        rw [hres] at hp
        rcases mem_updateEntry _ _ _ _ hp with ⟨q, hq, ⟨hqk, hpq⟩ | ⟨hqk, hpq⟩⟩
        · rw [hpq, groupLabels_append_irrelevant seen i q.1 (Or.inl fun hc => hqk hc.symm)]
          exact hopt q hq
        · rw [hpq]
          show addOption q.2.options (optLabel i) = _
          rw [hqk, groupLabels_append_single, if_pos ⟨rfl, ho⟩,
              firstDedup_append_single, hopt q hq, hqk]
    · rw [hkeys, if_pos hex]; exact hnodup
    · intro j hj
      rw [hkeys, if_pos hex]
      rcases List.mem_append.mp hj with hj | hj
      · exact hcover j hj
      · have hji : j = i := by simpa using hj
        subst hji
        rcases List.any_eq_true.mp hex with ⟨p, hp, hpk⟩
        exact List.mem_map.mpr ⟨p, hp, by simpa using hpk⟩
  · -- a fresh entry is created for `groupKey i`
    have hnew : groupKey i ∉ gs.map Prod.fst := not_any_key gs _ hex
    have hnoseen : ∀ j ∈ seen, groupKey j ≠ groupKey i := by
      intro j hj hc
      exact hnew (hc ▸ hcover j hj)
    have hlabels : groupLabels seen (groupKey i) = [] :=
      groupLabels_eq_nil seen _ hnoseen
    refine ⟨?_, ?_, ?_⟩
    · intro p hp
      by_cases ho : optLabel i = ""
      · have hres : collectStep gs i = gs ++
            [(groupKey i, { control := i.ty, group := groupKey i
                          , label := labelFor i.toFormElem, options := []
                          , required := isRequired i.toFormElem })] := by
          simp [collectStep, hex, ho]
        rw [hres] at hp
        rcases List.mem_append.mp hp with hp | hp
        · rw [groupLabels_append_irrelevant seen i p.1 (Or.inr ho)]
          exact hopt p hp
        · have hpe : p = (groupKey i, { control := i.ty, group := groupKey i
                                      , label := labelFor i.toFormElem, options := []
                                      , required := isRequired i.toFormElem }) := by
            simpa using hp
          rw [hpe]
          show ([] : List String) = _
          rw [groupLabels_append_irrelevant seen i _ (Or.inr ho), hlabels]
          rfl
      · have hres : collectStep gs i = updateEntry
            (gs ++ [(groupKey i, { control := i.ty, group := groupKey i
                                 , label := labelFor i.toFormElem, options := []
                                 , required := isRequired i.toFormElem })])
            (groupKey i)
            (fun gr => { gr with options := addOption gr.options (optLabel i) }) := by
          simp [collectStep, hex, ho]
        rw [hres] at hp
        rcases mem_updateEntry _ _ _ _ hp with ⟨q, hq, ⟨hqk, hpq⟩ | ⟨hqk, hpq⟩⟩
        · rcases List.mem_append.mp hq with hq | hq
          · rw [hpq, groupLabels_append_irrelevant seen i q.1 (Or.inl fun hc => hqk hc.symm)]
            exact hopt q hq
          · have hqe : q = (groupKey i, { control := i.ty, group := groupKey i
                                        , label := labelFor i.toFormElem, options := []
                                        , required := isRequired i.toFormElem }) := by
              simpa using hq
            exact absurd (congrArg Prod.fst hqe) hqk
        · have hqe : q = (groupKey i, { control := i.ty, group := groupKey i
                                      , label := labelFor i.toFormElem, options := []
                                      , required := isRequired i.toFormElem }) := by
            rcases List.mem_append.mp hq with hq | hq
            · have hmm : q.1 ∈ gs.map Prod.fst := List.mem_map.mpr ⟨q, hq, rfl⟩
              exact absurd (hqk ▸ hmm) hnew
            · simpa using hq
          rw [hpq, hqe]
          show addOption ([] : List String) (optLabel i) = _
          rw [groupLabels_append_single, if_pos ⟨rfl, ho⟩, hlabels]
          rfl
    · rw [hkeys, if_neg hex, List.nodup_append]
      refine ⟨hnodup, List.nodup_singleton _, ?_⟩
      intro a ha hax
      have hak : a = groupKey i := by simpa using hax
      exact hnew (hak ▸ ha)
    · intro j hj
      rw [hkeys, if_neg hex]
      rcases List.mem_append.mp hj with hj | hj
      · exact List.mem_append.mpr (Or.inl (hcover j hj))
      · have hji : j = i := by simpa using hj
        subst hji
        exact List.mem_append.mpr (Or.inr (by simp))

theorem collectGroups_inv (inputs : List RCInput) :
    ∀ seen gs, GroupsInv seen gs →
      GroupsInv (seen ++ inputs) (inputs.foldl collectStep gs) := by
  induction inputs with
  | nil => intro seen gs h; simpa using h
  | cons i rest ih =>
    intro seen gs h
    have hstep := collectStep_inv seen gs i h
    have := ih (seen ++ [i]) (collectStep gs i) hstep
    simpa using this

/-! ## Claim C4 -/

/-- C4: every group produced by the grouping pass holds, as its `options`,
exactly the distinct non-empty option labels contributed to its key, each
once, in first-occurrence document order; and the set is materialized as a
list exactly when it is non-empty. -/
theorem c4_group_options (inputs : List RCInput) (g : String) (gr : GroupRec)
    (hmem : (g, gr) ∈ collectGroups inputs) :
    gr.options = firstDedup (groupLabels inputs g) ∧
    gr.options.Nodup ∧
    (∀ x, x ∈ gr.options ↔ x ∈ groupLabels inputs g) ∧
    (materializeOptions gr.options = .asList gr.options ↔ gr.options ≠ []) := by
  have hbase : GroupsInv [] [] := ⟨by simp, by simp, by simp⟩
  have hinv := collectGroups_inv inputs [] [] hbase
  simp only [List.nil_append] at hinv
  obtain ⟨hopt, -, -⟩ := hinv
  have h1 : gr.options = firstDedup (groupLabels inputs g) := hopt (g, gr) hmem
  refine ⟨h1, h1 ▸ firstDedup_nodup _, fun x => by rw [h1]; exact mem_firstDedup _ _, ?_⟩
  unfold materializeOptions
  rcases gr.options with _ | ⟨y, ys⟩ <;> simp

/-- A radio input named `color` inside a label reading `Yes`. -/
def radioYes : RCInput :=
  { id := "", labelByFor := none, closestLabel := some "Yes", headingText := none
  , ariaRequired := none, requiredProp := false
  , ty := "radio", name := "color", value := "yes" }

/-- A radio input named `color` inside a label reading `No`. -/
def radioNo : RCInput :=
  { id := "", labelByFor := none, closestLabel := some "No", headingText := none
  , ariaRequired := none, requiredProp := false
  , ty := "radio", name := "color", value := "no" }

/-- The group record the pass builds for the two radios. -/
def yesNoGroup : GroupRec :=
  { control := "radio", group := "color", label := "Yes"
  , options := ["Yes", "No"], required := false }

/-- C4 witness: two same-named radios labelled `Yes` and `No` yield the
single group `color` with `options = ["Yes", "No"]`. -/
theorem c4_group_options_witness :
    ("color", yesNoGroup) ∈ collectGroups [radioYes, radioNo] ∧
    (yesNoGroup.options = firstDedup (groupLabels [radioYes, radioNo] "color") ∧
     yesNoGroup.options.Nodup ∧
     (∀ x, x ∈ yesNoGroup.options ↔ x ∈ groupLabels [radioYes, radioNo] "color") ∧
     (materializeOptions yesNoGroup.options = .asList yesNoGroup.options ↔
       yesNoGroup.options ≠ [])) :=
  ⟨by decide, c4_group_options _ _ _ (by decide)⟩

/-! ## Claim C1 -/

/-- The argument description of claim C1 as frozen: each field passes
through whenever it is *present* in the body, and is defaulted only when
absent. -/
def claimC1Args (body : JSValue) (a : AIRunArgs) : Prop :=
  a.messages = (if hasField body "messages" then jsGet body "messages"
                else .arr [.obj [("role", .str "user"),
                  ("content", if hasField body "prompt" then jsGet body "prompt"
                              else .str "")]]) ∧
  a.model = (if hasField body "model" then jsGet body "model"
             else .str defaultModel) ∧
  a.stream = (if hasField body "stream" then jsGet body "stream"
              else .bool true) ∧
  a.max_tokens = (if hasField body "max_tokens" then jsGet body "max_tokens"
                  else .num 2048)

/-- The amended argument description: a field passes through when it is
present with a value that is not `null` (in particular `stream:false` and
`max_tokens:0` pass through); a present `null` is defaulted exactly like an
absent field, because `??` treats `null` and `undefined` alike. -/
def amendedC1Args (body : JSValue) (a : AIRunArgs) : Prop :=
  a.messages = (if isNullish (jsGet body "messages") then
                  .arr [.obj [("role", .str "user"),
                    ("content", if isNullish (jsGet body "prompt") then .str ""
                                else jsGet body "prompt")]]
                else jsGet body "messages") ∧
  a.model = (if isNullish (jsGet body "model") then .str defaultModel
             else jsGet body "model") ∧
  a.stream = (if isNullish (jsGet body "stream") then .bool true
              else jsGet body "stream") ∧
  a.max_tokens = (if isNullish (jsGet body "max_tokens") then .num 2048
                  else jsGet body "max_tokens")

/-- A `POST /sse` request whose body is `{"messages": null}`: the field is
present, but the handler substitutes the default message list. -/
def reqC1Null : HttpRequest :=
  { method := "POST", pathname := "/sse", query := "", headers := []
  , body := some (.obj [("messages", JSValue.null)]) }

/-- C1, counterexample: on the body `{"messages": null}` the generation
service receives the default message list, not `null`, so the frozen
description (pass-through whenever the field is present) is false. -/
theorem c1_counterexample :
    route reqC1Null = .aiStream (sseArgs (.obj [("messages", JSValue.null)])) ∧
    ¬ claimC1Args (.obj [("messages", JSValue.null)])
        (sseArgs (.obj [("messages", JSValue.null)])) := by
  refine ⟨rfl, ?_⟩
  intro h
  exact absurd h.1 (by simp [claimC1Args, sseArgs, hasField, jsGet, nullish])

/-- C1 (amended): for every `POST /sse` request the generation service is
invoked with exactly the arguments built by the defaulting block, and those
arguments satisfy the amended description: each of `messages`, `model`,
`stream`, `max_tokens` (and `prompt` inside the default message) passes
through exactly when present with a non-`null` value — including
`stream:false` and `max_tokens:0` — and is defaulted otherwise. -/
theorem c1_sse_defaulting (req : HttpRequest)
    (hm : req.method = "POST") (hp : req.pathname = "/sse") :
    route req = .aiStream (sseArgs (readJson req.body)) ∧
    amendedC1Args (readJson req.body) (sseArgs (readJson req.body)) := by
  constructor
  · simp [route, hm, hp]
  · refine ⟨?_, ?_, ?_, ?_⟩ <;> simp [amendedC1Args, sseArgs, nullish_eq_ite]

/-- C1 witness: a body carrying `prompt`, `stream:false` and
`max_tokens:0` flows through the defaulting block. -/
theorem c1_sse_defaulting_witness :
    (let req : HttpRequest :=
      { method := "POST", pathname := "/sse", query := "", headers := []
      , body := some (.obj [("prompt", .str "hello"), ("stream", .bool false),
                            ("max_tokens", .num 0)]) }
     route req = .aiStream (sseArgs (readJson req.body)) ∧
     amendedC1Args (readJson req.body) (sseArgs (readJson req.body))) :=
  c1_sse_defaulting _ rfl rfl

/-! ## Claim C2 -/

/-- C2: a `POST /extract` whose parsed body has no `url` field gets the
400 response with body `{error: "Missing 'url'"}`. -/
theorem c2_extract_missing_url (req : HttpRequest)
    (hm : req.method = "POST") (hp : req.pathname = "/extract")
    (hu : hasField (readJson req.body) "url" = false) :
    route req = .jsonResponse 400 missingUrlBody := by
  have h := jsGet_eq_undefined_of_not_hasField _ _ hu
  simp [route, hm, hp, h, jsTruthy]

/-- C2 witness: `POST /extract` with body `{}`. -/
theorem c2_extract_missing_url_witness :
    route { method := "POST", pathname := "/extract", query := "", headers := []
          , body := some (.obj []) } = .jsonResponse 400 missingUrlBody :=
  c2_extract_missing_url _ rfl rfl rfl

/-! ## Claim C3 -/

/-- C3: once `launch` has succeeded, an uncaught error in any of the later
steps before the `close` call (`newContext`, `newPage`, `goto`, or the
in-page `evaluate`) aborts the handler with `close` never invoked: the
browser session leaks. -/
theorem c3_session_leak (o : ExtractOracle) (hl : o.launchOk = true)
    (hf : o.newContextOk = false ∨ o.newPageOk = false ∨
          o.gotoOk = false ∨ o.evalOk = false) :
    BrowserEv.close ∉ (runExtract o).1 ∧ (runExtract o).2 = false := by
  obtain ⟨l, nc, np, g, w, e, s, c⟩ := o
  simp only at hl hf
  subst hl
  cases nc <;> cases np <;> cases g <;> cases e <;> simp_all [runExtract]

/-- C3 witness: navigation fails after a successful launch; the trace has
no `close` and the handler aborts. -/
theorem c3_session_leak_witness :
    BrowserEv.close ∉ (runExtract ⟨true, true, true, false, true, true, true, true⟩).1 ∧
    (runExtract ⟨true, true, true, false, true, true, true, true⟩).2 = false :=
  c3_session_leak ⟨true, true, true, false, true, true, true, true⟩ rfl
    (Or.inr (Or.inr (Or.inl rfl)))

/-! ## Claim C5 -/

/-- C5: any method with a pathname outside the routed set gets the plain
404 response (`route` is total, so no branch can throw). -/
theorem c5_unknown_route_404 (req : HttpRequest)
    (h : req.pathname ∉ (["/health", "/version", "/sse", "/sse/message",
                          "/mcp", "/extract"] : List String)) :
    route req = .response 404 "Not Found" := by
  simp only [List.mem_cons, List.mem_singleton, not_or] at h
  obtain ⟨h1, h2, h3, h4, h5, h6⟩ := h
  simp [route, h1, h3, h4, h5, h6]

/-- C5 witness: `DELETE /nope` is answered 404. -/
theorem c5_unknown_route_404_witness :
    route { method := "DELETE", pathname := "/nope", query := "", headers := []
          , body := none } = .response 404 "Not Found" :=
  c5_unknown_route_404 _ (by decide)

/-! ## Claim C6 -/

/-- C6: a `POST /sse` or `POST /extract` whose body failed to parse is
handled exactly as if the body were `{}` — no parse error reaches the
caller — and on `/sse` the generation call receives all defaults. -/
theorem c6_malformed_body (req : HttpRequest)
    (hm : req.method = "POST")
    (_hp : req.pathname = "/sse" ∨ req.pathname = "/extract")
    (hb : req.body = none) :
    route req = route { req with body := some (.obj []) } ∧
    (req.pathname = "/sse" → route req = .aiStream (sseArgs (.obj []))) := by
  constructor
  · simp [route, hb, readJson]
  · intro hsse
    simp [route, hm, hsse, hb, readJson]

/-- C6 witness: a malformed body on `POST /sse`. -/
theorem c6_malformed_body_witness :
    (let req : HttpRequest :=
      { method := "POST", pathname := "/sse", query := "", headers := []
      , body := none }
     route req = route { req with body := some (.obj []) } ∧
     (req.pathname = "/sse" → route req = .aiStream (sseArgs (.obj [])))) :=
  c6_malformed_body _ rfl (Or.inl rfl) rfl

/-! ## Claim C7 -/

/-- C7: `GET /health` is answered 200 `"ok"` whatever the query string,
headers or body are. -/
theorem c7_health_ok (req : HttpRequest)
    (hm : req.method = "GET") (hp : req.pathname = "/health") :
    route req = .response 200 "ok" := by
  simp [route, hm, hp]

/-- C7 witness: a `GET /health` with a query string, headers and a body. -/
theorem c7_health_ok_witness :
    route { method := "GET", pathname := "/health", query := "verbose=1"
          , headers := [("x-forwarded-for", "10.0.0.1")]
          , body := some (.str "ignored") } = .response 200 "ok" :=
  c7_health_ok _ rfl rfl

/-! ## Claim C9 -/

/-- C9: a `POST /extract` whose body carries a `url` field with a falsy
value (empty string, `false`, `0`, `null`) gets the same 400
`{error: "Missing 'url'"}` response as an absent field, and no browser
call at all is made — in particular no session is launched. -/
theorem c9_extract_falsy_url (req : HttpRequest)
    (hm : req.method = "POST") (hp : req.pathname = "/extract")
    (_hf : hasField (readJson req.body) "url" = true)
    (hu : jsTruthy (jsGet (readJson req.body) "url") = false) :
    route req = .jsonResponse 400 missingUrlBody ∧
    ∀ o : ExtractOracle, browserTrace req o = [] := by
  have hr : route req = .jsonResponse 400 missingUrlBody := by
    simp [route, hm, hp, hu]
  exact ⟨hr, fun o => by simp [browserTrace, hr]⟩

/-- C9 witness: `POST /extract` with body `{"url": ""}`. -/
theorem c9_extract_falsy_url_witness :
    (let req : HttpRequest :=
      { method := "POST", pathname := "/extract", query := "", headers := []
      , body := some (.obj [("url", .str "")]) }
     route req = .jsonResponse 400 missingUrlBody ∧
     ∀ o : ExtractOracle, browserTrace req o = []) :=
  c9_extract_falsy_url _ rfl rfl rfl rfl

/-! ## Claim C10 -/

/-- C10: branch selection is a function of method and pathname alone; two
requests agreeing on those select the same branch, and for both of them
the dispatch outcome is the selected branch's handler applied to the
request — query string, headers and body never influence the selection. -/
theorem c10_branch_noninterference (r1 r2 : HttpRequest)
    (hm : r1.method = r2.method) (hp : r1.pathname = r2.pathname) :
    branchOf r1 = branchOf r2 ∧
    route r1 = handlerFor (branchOf r1) r1 ∧
    route r2 = handlerFor (branchOf r2) r2 :=
  ⟨by unfold branchOf; rw [hm, hp], route_eq_handlerFor r1, route_eq_handlerFor r2⟩

/-- C10 witness: two `POST /extract` requests differing in query, headers
and body select the same branch. -/
theorem c10_branch_noninterference_witness :
    (let r1 : HttpRequest :=
      { method := "POST", pathname := "/extract", query := "", headers := []
      , body := none }
     let r2 : HttpRequest :=
      { method := "POST", pathname := "/extract", query := "debug=1"
      , headers := [("accept", "text/html")]
      , body := some (.obj [("url", .str "https://example.com")]) }
     branchOf r1 = branchOf r2 ∧
     route r1 = handlerFor (branchOf r1) r1 ∧
     route r2 = handlerFor (branchOf r2) r2) :=
  c10_branch_noninterference _ _ rfl rfl

end PlaywrightMcp
